import Mathlib

/-!
A verification development for the magenta-js symbolic-music conversion layer:
the MIDI <-> NoteSequence converters (`music/src/core/midi_io.ts`) and the
Coconet pianoroll codec (`sequenceToPianoroll`, `pianorollToSequence`,
`flatArrayToPianoroll`).

JavaScript numbers are modelled as `ℚ` (every value manipulated here is either
an integer or an exact binary fraction such as `(v + 1) / 128`, on which IEEE
doubles are exact), integer-valued fields as `ℤ` or `ℕ`.  Protobuf message
fields are modelled as always-present values (protobufjs default-initialises
missing numeric fields to `0` and booleans to `false`; the sources' scattered
`isNullOrUndefined(x) ? d : x` guards are therefore the identity here).
Functions that can throw in JavaScript are modelled in `Except String` /
`Option`, with the thrown message as the error value.
-/

set_option autoImplicit false
set_option linter.unusedVariables false
set_option maxRecDepth 100000

/-! ## Data model -/

/-- Message `NoteSequence.Tempo`: `{time, qpm}`. -/
structure Tempo where
  time : ℚ
  qpm : ℚ
  deriving DecidableEq, Repr

/-- Message `NoteSequence.TimeSignature`: `{time, numerator, denominator}`. -/
structure TimeSignature where
  time : ℚ
  numerator : ℤ
  denominator : ℤ
  deriving DecidableEq, Repr

/-- Message `NoteSequence.Note`: the per-note fields read by the converters under
verification.  Quantized steps are used only by the pianoroll codec, continuous
times only by the MIDI path. -/
structure Note where
  pitch : ℤ
  instrument : ℤ
  program : ℤ
  startTime : ℚ
  endTime : ℚ
  velocity : ℤ
  isDrum : Bool
  quantizedStartStep : ℤ
  quantizedEndStep : ℤ
  deriving DecidableEq, Repr

/-- The `NoteSequence` document (the fields the converters touch;
`sourceInfo` is informational only and never read back, so it is omitted). -/
structure NoteSeq where
  ticksPerQuarter : ℤ
  tempos : List Tempo
  timeSignatures : List TimeSignature
  notes : List Note
  totalTime : ℚ
  totalQuantizedSteps : ℤ
  deriving DecidableEq, Repr

/-- Result of `NoteSequence.create()`: protobufjs default-initialises every field. -/
def NoteSeq.empty : NoteSeq :=
  { ticksPerQuarter := 0, tempos := [], timeSignatures := [], notes := [],
    totalTime := 0, totalQuantizedSteps := 0 }

/-! ## Constants

From `core/constants.ts` (that file itself is not among the sources; the
values are fixed by the spec where a claim depends on them). -/

/-- Modelled from the spec: `MIDI_VELOCITIES` from `core/constants.ts` (not in
the sources).  The spec's velocity formulas `floor(normalizedVelocity × 128)`
and `(velocity + 1) / 128` fix it at `128`. -/
def MIDI_VELOCITIES : ℤ := 128

/-- Modelled from the spec: the default tempo injected when `tempos` is empty
(`DEFAULT_QUARTERS_PER_MINUTE` in `core/constants.ts`, not in the sources).
No claim depends on the numeric value. -/
def DEFAULT_QUARTERS_PER_MINUTE : ℚ := 120

/-- Modelled from the spec: default pulse resolution used when
`ticksPerQuarter` is absent (`DEFAULT_TICKS_PER_QUARTER` in
`core/constants.ts`, not in the sources).  No claim depends on the value. -/
def DEFAULT_TICKS_PER_QUARTER : ℤ := 220

/-- Modelled from the spec: the fixed drum channel constant (`DRUM_CHANNEL` in
`core/constants.ts`, not in the sources).  No claim depends on the value. -/
def DRUM_CHANNEL : ℤ := 9

/-- Modelled from the spec: the fixed default channel constant
(`DEFAULT_CHANNEL` in `core/constants.ts`, not in the sources). -/
def DEFAULT_CHANNEL : ℤ := 0

/-- Constant `NUM_PITCHES = 46`: length of the pitch axis of a pianoroll. -/
def NUM_PITCHES : ℕ := 46

/-- Constant `MIN_PITCH = 36`: pianoroll pitch index 0 corresponds to MIDI pitch 36. -/
def MIN_PITCH : ℤ := 36

/-! ## `flatArrayToPianoroll` (Coconet `coconet_utils.ts`)

The source pushes, for each `stepIndex < numberOfSteps` and each
`pitchIndex < NUM_PITCHES`, the slice
`flatArray.slice(index, index + 4)` with
`index = stepIndex * NUM_PITCHES * 4 + pitchIndex * 4`.
`Array.prototype.slice` with a nonnegative start clamps at the array end and
never throws, which is `List.drop/take`. -/

def flatArrayToPianoroll (flatArray : List ℚ) (numberOfSteps : ℕ) :
    List (List (List ℚ)) :=
  (List.range numberOfSteps).map fun stepIndex =>
    (List.range NUM_PITCHES).map fun pitchIndex =>
      ((flatArray.drop (stepIndex * NUM_PITCHES * 4 + pitchIndex * 4)).take 4)

/-! ## `sequenceToPianoroll` (Coconet `coconet_utils.ts`)

`buildEmptyPianoroll` pushes `numberOfSteps` rows of `NUM_PITCHES` copies of
`[0, 0, 0, 0]`.  The assignment `pianoroll[i][pitchIndex][voice] = 1` throws a
`TypeError` when `i` or `pitchIndex` is outside the array (JavaScript then
reads a property of `undefined`); the innermost index is always the validated
voice `0..3` into a length-4 array, so `List.set` is exact there. -/

def buildEmptyPianoroll (numberOfSteps : ℕ) : List (List (List ℚ)) :=
  (List.range numberOfSteps).map fun _ =>
    (List.range NUM_PITCHES).map fun _ => [0, 0, 0, 0]

/-- One JavaScript assignment `pianoroll[i][p][v] = 1`; `none` is the
`TypeError` thrown when `i` or `p` misses the allocated tensor. -/
def setCell (pianoroll : List (List (List ℚ))) (i p v : ℤ) :
    Option (List (List (List ℚ))) :=
  if 0 ≤ i ∧ i.toNat < pianoroll.length then
    let step := pianoroll.getD i.toNat []
    if 0 ≤ p ∧ p.toNat < step.length then
      some (pianoroll.set i.toNat
        (step.set p.toNat ((step.getD p.toNat []).set v.toNat 1)))
    else none
  else none

/-- The loop `for (let i = stepIndex; i < stepIndex + duration; i++)`,
unrolled over its (clamped) iteration count. -/
def writeSteps (p v : ℤ) :
    List (List (List ℚ)) → ℤ → ℕ → Option (List (List (List ℚ)))
  | pianoroll, _, 0 => some pianoroll
  | pianoroll, i, k + 1 =>
    match setCell pianoroll i p v with
    | some pianoroll' => writeSteps p v pianoroll' (i + 1) k
    | none => none

/-- The message of the error thrown on a voice outside `[0, 3]`. -/
def invalidVoiceMsg (voice : ℤ) : String :=
  "Found invalid voice " ++ toString voice ++ ". Skipping."

/-- The body of the `notes.forEach` callback of `sequenceToPianoroll`, with
the source's locals inlined: `pitchIndex = note.pitch - MIN_PITCH`,
`stepIndex = note.quantizedStartStep`,
`duration = note.quantizedEndStep - note.quantizedStartStep`,
`voice = note.instrument`. -/
def addNote (pianoroll : List (List (List ℚ))) (note : Note) :
    Except String (List (List (List ℚ))) :=
  if note.instrument < 0 ∨ note.instrument > 3 then
    .error (invalidVoiceMsg note.instrument)
  else
    match writeSteps (note.pitch - MIN_PITCH) note.instrument pianoroll
        note.quantizedStartStep
        (note.quantizedEndStep - note.quantizedStartStep).toNat with
    | some pianoroll' => .ok pianoroll'
    | none => .error "TypeError: Cannot set properties of undefined"

def sequenceToPianoroll (ns : NoteSeq) (numberOfSteps : ℕ) :
    Except String (List (List (List ℚ))) :=
  ns.notes.foldlM addNote (buildEmptyPianoroll numberOfSteps)

/-! ## `pianorollToSequence` (Coconet `coconet_utils.ts`)

The three nested `forEach` loops with their index arguments are de-sugared
into three structural recursions carrying the index counter. -/

/-- Value `new NoteSequence.Note()` with the four assigned fields; the remaining
fields keep their protobuf defaults. -/
def mkDecodedNote (stepIndex pitchIndex voiceIndex : ℕ) : Note :=
  { pitch := (pitchIndex : ℤ) + MIN_PITCH
    instrument := (voiceIndex : ℤ)
    program := 0
    startTime := 0
    endTime := 0
    velocity := 0
    isDrum := false
    quantizedStartStep := (stepIndex : ℤ)
    quantizedEndStep := (stepIndex : ℤ) + 1 }

/-- Innermost loop: over the per-voice values of one cell array. -/
def voiceNotes (stepIndex pitchIndex : ℕ) : List ℚ → ℕ → List Note
  | [], _ => []
  | value :: rest, voiceIndex =>
    (if value = 1 then [mkDecodedNote stepIndex pitchIndex voiceIndex] else [])
      ++ voiceNotes stepIndex pitchIndex rest (voiceIndex + 1)

/-- Middle loop: over the pitch axis of one step. -/
def pitchNotes (stepIndex : ℕ) : List (List ℚ) → ℕ → List Note
  | [], _ => []
  | cell :: rest, pitchIndex =>
    voiceNotes stepIndex pitchIndex cell 0 ++ pitchNotes stepIndex rest (pitchIndex + 1)

/-- Outer loop: over the steps of the pianoroll. -/
def stepNotes : List (List (List ℚ)) → ℕ → List Note
  | [], _ => []
  | step :: rest, stepIndex =>
    pitchNotes stepIndex step 0 ++ stepNotes rest (stepIndex + 1)

/-- Whether some innermost cell value of the tensor equals `1`. -/
def hasActiveCell (pianoroll : List (List (List ℚ))) : Prop :=
  ∃ step ∈ pianoroll, ∃ cell ∈ step, (1 : ℚ) ∈ cell

instance (pianoroll : List (List (List ℚ))) : Decidable (hasActiveCell pianoroll) := by
  unfold hasActiveCell
  infer_instance

/-- Function `pianorollToSequence`: `none` models the `TypeError` thrown by
`notes[notes.length - 1].quantizedEndStep` when no note was emitted
(`notes[-1]` is `undefined`). -/
def pianorollToSequence (pianoroll : List (List (List ℚ))) : Option NoteSeq :=
  let notes := stepNotes pianoroll 0
  match notes.getLast? with
  | none => none
  | some lastNote =>
    some { NoteSeq.empty with
            notes := notes, totalQuantizedSteps := lastNote.quantizedEndStep }

/-! ## `midiToSequenceProto` (`core/midi_io.ts`)

The adapter boundary: `midiconvert.parse` output is modelled structurally
(`ParsedMidi`); the converter proper never touches bytes. -/

structure MidiNote where
  time : ℚ
  duration : ℚ
  midi : ℤ
  velocity : ℚ
  deriving DecidableEq, Repr

structure MidiTrack where
  notes : List MidiNote
  isPercussion : Bool
  instrumentNumber : ℤ
  deriving DecidableEq, Repr

structure MidiHeader where
  PPQ : ℤ
  bpm : ℚ
  timeSignature : Option (ℤ × ℤ)
  deriving DecidableEq, Repr

structure ParsedMidi where
  header : MidiHeader
  tracks : List MidiTrack
  deriving DecidableEq, Repr

/-- The mutable locals of the track loop of `midiToSequenceProto`:
the `instrumentNumber` counter (initially `-1`), the accumulated
`ns.notes`, and the running `ns.totalTime` (initially `0`). -/
structure ImportState where
  instrumentNumber : ℤ
  notes : List Note
  totalTime : ℚ
  deriving DecidableEq, Repr

/-- The note pushed for a source event (spec §4.1):
`velocity = floor(normalizedVelocity × 128)`, `program` and `isDrum` from the
owning track. -/
def noteFromMidi (track : MidiTrack) (instrumentNumber : ℤ) (note : MidiNote) : Note :=
  { pitch := note.midi
    instrument := instrumentNumber
    program := track.instrumentNumber
    startTime := note.time
    endTime := note.time + note.duration
    velocity := ⌊note.velocity * (MIDI_VELOCITIES : ℚ)⌋
    isDrum := track.isPercussion
    quantizedStartStep := 0
    quantizedEndStep := 0 }

/-- One iteration of the inner `for (const note of track.notes)` loop:
push the note, then bump `totalTime` if this note ends later. -/
def importNote (track : MidiTrack) (st : ImportState) (note : MidiNote) : ImportState :=
  let endTime := note.time + note.duration
  { st with
    notes := st.notes ++ [noteFromMidi track st.instrumentNumber note]
    totalTime := if endTime > st.totalTime then endTime else st.totalTime }

/-- One iteration of the outer `for (const track of parsedMidi.tracks)` loop:
a track with at least one note consumes a fresh instrument number. -/
def importTrack (st : ImportState) (track : MidiTrack) : ImportState :=
  let st :=
    if track.notes.length > 0 then
      { st with instrumentNumber := st.instrumentNumber + 1 }
    else st
  track.notes.foldl (importNote track) st

def midiToSequenceProto (parsedMidi : ParsedMidi) : NoteSeq :=
  let st := parsedMidi.tracks.foldl importTrack
    { instrumentNumber := -1, notes := [], totalTime := 0 }
  { ticksPerQuarter := parsedMidi.header.PPQ
    timeSignatures := [match parsedMidi.header.timeSignature with
      | some ts => { time := 0, numerator := ts.1, denominator := ts.2 }
      | none => { time := 0, numerator := 4, denominator := 4 }]
    tempos := [{ time := 0, qpm := parsedMidi.header.bpm }]
    notes := st.notes
    totalTime := st.totalTime
    totalQuantizedSteps := 0 }

/-! ## `sequenceProtoToMidi` (`core/midi_io.ts`)

The output is the adapter-ready structure handed to `midiconvert.fromJSON`.
The converter can throw `MidiConversionError`; it also assigns to
`ns.tempos` / `ns.timeSignatures` when they are empty, so it is modelled as
returning the (possibly updated) input alongside the result. -/

structure JsonNote where
  midi : ℤ
  time : ℚ
  duration : ℚ
  velocity : ℚ
  deriving DecidableEq, Repr

structure JsonTrack where
  id : ℤ
  notes : List JsonNote
  isPercussion : Bool
  channelNumber : ℤ
  instrumentNumber : ℤ
  deriving DecidableEq, Repr

structure MidiJson where
  bpm : ℚ
  PPQ : ℤ
  timeSignature : ℤ × ℤ
  tracks : List JsonTrack
  deriving DecidableEq, Repr

/-- The JavaScript `Map<number, INote[]>` keyed by instrument, as an
association list in key-insertion order (the order of `Map.prototype.keys`). -/
def addNoteToTracks (tracksAcc : List (ℤ × List Note)) (instrument : ℤ)
    (note : Note) : List (ℤ × List Note) :=
  if tracksAcc.any (fun e => e.1 = instrument) then
    tracksAcc.map (fun e => if e.1 = instrument then (e.1, e.2 ++ [note]) else e)
  else tracksAcc ++ [(instrument, [note])]

/-- The grouping loop `for (const note of ns.notes)`.  The source's
`note.instrument ? note.instrument : 0` is the identity on integer-valued
`instrument` fields (`0` is falsy and maps to `0`). -/
def groupByInstrument (notes : List Note) : List (ℤ × List Note) :=
  notes.foldl (fun acc note => addNoteToTracks acc note.instrument note) []

def lookupTrack (tracksAcc : List (ℤ × List Note)) (k : ℤ) : Option (List Note) :=
  (tracksAcc.find? (fun e => e.1 = k)).map (fun e => e.2)

/-- Decimal digits of a natural number, most significant first (fuel-based so
that the kernel can evaluate it). -/
def natDigitsAux : ℕ → ℕ → List ℕ
  | 0, _ => []
  | fuel + 1, n => if n < 10 then [n] else natDigitsAux fuel (n / 10) ++ [n % 10]

def natDigits (n : ℕ) : List ℕ := natDigitsAux (n + 1) n

/-- The UTF-16 code units of the JavaScript decimal string of an integer
(`String(n)`): an optional `'-'` (code 45) then digit characters (code 48+d). -/
def jsIntChars (n : ℤ) : List ℕ :=
  if n < 0 then 45 :: (natDigits (-n).toNat).map (fun d => d + 48)
  else (natDigits n.toNat).map (fun d => d + 48)

/-- Code-unit-wise lexicographic comparison, as used by the default
`Array.prototype.sort` comparator. -/
def charsLe : List ℕ → List ℕ → Bool
  | [], _ => true
  | _ :: _, [] => false
  | a :: as, b :: bs =>
    if a < b then true else if b < a then false else charsLe as bs

def jsSortInsert (a : ℤ) : List ℤ → List ℤ
  | [] => [a]
  | b :: bs =>
    if charsLe (jsIntChars a) (jsIntChars b) then a :: b :: bs
    else b :: jsSortInsert a bs

/-- JavaScript `Array.prototype.sort()` with no comparator: sorts by the lexicographic
order of the elements' string representations.  The map keys are pairwise
distinct, so any sorting algorithm yields this unique order; insertion sort is
used here. -/
def jsSort (l : List ℤ) : List ℤ := l.foldr jsSortInsert []

def exportNote (note : Note) : JsonNote :=
  { midi := note.pitch
    time := note.startTime
    duration := note.endTime - note.startTime
    velocity := ((note.velocity : ℚ) + 1) / (MIDI_VELOCITIES : ℚ) }

/-- The `for (let i = 0; i < instruments.length; i++)` loop.  The two
`TypeError` arms model `tracks.get(i)` being `undefined` (or empty) when `i`
is absent from the map; the contiguity check `i !== instruments[i]` makes them
unreachable. -/
def buildJsonTracks (tracksAcc : List (ℤ × List Note)) :
    ℕ → List ℤ → Except String (List JsonTrack)
  | _, [] => .ok []
  | i, instrument :: rest =>
    if (i : ℤ) ≠ instrument then
      .error "Instrument list must be continuous and start at 0"
    else
      match lookupTrack tracksAcc (i : ℤ) with
      | none => .error "TypeError: Cannot read properties of undefined"
      | some [] => .error "TypeError: Cannot read properties of undefined"
      | some (n0 :: tail) =>
        let track : JsonTrack :=
          { id := (i : ℤ)
            notes := (n0 :: tail).map exportNote
            isPercussion := n0.isDrum
            channelNumber := if n0.isDrum then DRUM_CHANNEL else DEFAULT_CHANNEL
            instrumentNumber := n0.program }
        (buildJsonTracks tracksAcc (i + 1) rest).map (fun ts => track :: ts)

/-- Validation and output construction, after the defaulting step.  The
source's `ns.ticksPerQuarter ? ... : DEFAULT` treats `0` as absent. -/
def exportBody (ns : NoteSeq) : Except String MidiJson :=
  match ns.tempos with
  | [tempo] =>
    if tempo.time ≠ 0 then
      .error "NoteSequence must have exactly 1 tempo at time 0"
    else
      match ns.timeSignatures with
      | [timeSig] =>
        if timeSig.time ≠ 0 then
          .error "NoteSequence must have exactly 1 time signature at time 0"
        else
          let tracksAcc := groupByInstrument ns.notes
          let instruments := jsSort (tracksAcc.map (fun e => e.1))
          (buildJsonTracks tracksAcc 0 instruments).map fun jsonTracks =>
            { bpm := tempo.qpm
              PPQ := if ns.ticksPerQuarter = 0 then DEFAULT_TICKS_PER_QUARTER
                     else ns.ticksPerQuarter
              timeSignature := (timeSig.numerator, timeSig.denominator)
              tracks := jsonTracks }
      | _ => .error "NoteSequence must have exactly 1 time signature at time 0"
  | _ => .error "NoteSequence must have exactly 1 tempo at time 0"

/-- Function `sequenceProtoToMidi`.  The first component is the caller's `ns` after the
two in-place defaulting assignments (the only writes the source performs on
its argument); the second is the thrown error or the adapter-ready output. -/
def sequenceProtoToMidi (ns : NoteSeq) : NoteSeq × Except String MidiJson :=
  let ns :=
    if ns.tempos.length = 0 then
      { ns with tempos := [{ time := 0, qpm := DEFAULT_QUARTERS_PER_MINUTE }] }
    else ns
  let ns :=
    if ns.timeSignatures.length = 0 then
      { ns with timeSignatures := [{ time := 0, numerator := 4, denominator := 4 }] }
    else ns
  (ns, exportBody ns)

/-! ## Derived characterisations used by the theorems -/

/-- Unfolded form of the note list built by the track loop of
`midiToSequenceProto`, starting from instrument counter `c`. -/
def tracksNotes : List MidiTrack → ℤ → List Note
  | [], _ => []
  | track :: rest, c =>
    let c' := if track.notes.length > 0 then c + 1 else c
    track.notes.map (noteFromMidi track c') ++ tracksNotes rest c'

/-- Spec §4.1 wording: iterate tracks in order, assign a new monotonically
increasing instrument number (starting at `c`) to each track that contains at
least one note, shared by all of that track's notes; empty tracks are
skipped.  The list holds the instrument of each emitted note in order. -/
def specInstrumentAssignment : List MidiTrack → ℤ → List ℤ
  | [], _ => []
  | track :: rest, c =>
    if track.notes.length > 0 then
      List.replicate track.notes.length c ++ specInstrumentAssignment rest (c + 1)
    else specInstrumentAssignment rest c

/-- Number of tracks containing at least one note. -/
def numNonEmptyTracks (tracks : List MidiTrack) : ℕ :=
  tracks.countP fun track => 0 < track.notes.length

/-- The `endTime` (event time + duration) of every note of every track, in
iteration order. -/
def trackEndTimes (tracks : List MidiTrack) : List ℚ :=
  tracks.flatMap fun track => track.notes.map fun n => n.time + n.duration

def allEndTimes (parsedMidi : ParsedMidi) : List ℚ :=
  trackEndTimes parsedMidi.tracks

/-- A note whose `instrument` (pianoroll voice) lies outside `[0, 3]`. -/
def badVoice (note : Note) : Bool :=
  note.instrument < 0 || note.instrument > 3

/-- Spec §4.3's caller-responsibility precondition for `sequenceToPianoroll`:
the pitch falls in `[MIN_PITCH, MIN_PITCH + 46)` and the quantized steps fall
inside the allocated `numberOfSteps`. -/
def noteInRange (numberOfSteps : ℕ) (note : Note) : Prop :=
  MIN_PITCH ≤ note.pitch ∧ note.pitch < MIN_PITCH + (NUM_PITCHES : ℤ) ∧
  0 ≤ note.quantizedStartStep ∧ note.quantizedEndStep ≤ (numberOfSteps : ℤ)

instance (numberOfSteps : ℕ) (note : Note) :
    Decidable (noteInRange numberOfSteps note) := by
  unfold noteInRange
  infer_instance

/-- The tensor shape maintained by `sequenceToPianoroll`: `numberOfSteps`
steps of `NUM_PITCHES` pitch rows. -/
def WellShaped (pianoroll : List (List (List ℚ))) (numberOfSteps : ℕ) : Prop :=
  pianoroll.length = numberOfSteps ∧
  ∀ step ∈ pianoroll, step.length = NUM_PITCHES

/-- A `NoteSequence` holding a single note. -/
def singleNoteSeq (note : Note) : NoteSeq :=
  { NoteSeq.empty with notes := [note] }

/-- A silent pitch cell. -/
def zeroCell : List ℚ := [0, 0, 0, 0]

/-- A silent pianoroll step. -/
def zeroRow : List (List ℚ) := List.replicate NUM_PITCHES zeroCell

/-- A pianoroll step with exactly the cell `(p, v)` active. -/
def oneRow (p v : ℤ) : List (List ℚ) :=
  zeroRow.set p.toNat (zeroCell.set v.toNat 1)

/-- Concrete input for C4's amended theorem: an in-range note on voice 0
followed by an in-range note on the invalid voice 4. -/
def voiceDemoSeq : NoteSeq :=
  { NoteSeq.empty with notes := [
      { pitch := 40, instrument := 0, program := 0, startTime := 0, endTime := 0,
        velocity := 0, isDrum := false, quantizedStartStep := 0, quantizedEndStep := 2 },
      { pitch := 50, instrument := 4, program := 0, startTime := 0, endTime := 0,
        velocity := 0, isDrum := false, quantizedStartStep := 0, quantizedEndStep := 1 }] }

/-- Concrete input for C4's counterexample: the first note's pitch `200` is
far outside the pianoroll (pitch index `164`), the second note carries the
invalid voice `4`. -/
def typeErrorSeq : NoteSeq :=
  { NoteSeq.empty with notes := [
      { pitch := 200, instrument := 0, program := 0, startTime := 0, endTime := 0,
        velocity := 0, isDrum := false, quantizedStartStep := 0, quantizedEndStep := 1 },
      { pitch := 40, instrument := 4, program := 0, startTime := 0, endTime := 0,
        velocity := 0, isDrum := false, quantizedStartStep := 0, quantizedEndStep := 1 }] }

/-- A small concrete parsed-MIDI input (two non-empty tracks, one empty track
between them) used to instantiate universally quantified theorems. -/
def demoParsedMidi : ParsedMidi where
  header := { PPQ := 220, bpm := 120, timeSignature := none }
  tracks := [
    { notes := [{ time := 0, duration := 1, midi := 60, velocity := 0 },
                { time := 1, duration := 1, midi := 62, velocity := 0 }],
      isPercussion := false, instrumentNumber := 5 },
    { notes := [], isPercussion := false, instrumentNumber := 6 },
    { notes := [{ time := 1, duration := 0, midi := 64, velocity := 0 }],
      isPercussion := true, instrumentNumber := 7 }]

/-! ## Theorems -/

theorem getD_map_range {α : Type} (f : ℕ → α) {n s : ℕ} (h : s < n) (d : α) :
    (((List.range n).map f).getD s d) = f s := by
  rw [List.getD_eq_getElem?_getD, List.getElem?_map, List.getElem?_range h]
  rfl

theorem getD_take_drop {l : List ℚ} {i v : ℕ} (hv : v < 4) :
    ((l.drop i).take 4).getD v 0 = l.getD (i + v) 0 := by
  rw [List.getD_eq_getElem?_getD, List.getD_eq_getElem?_getD,
    List.getElem?_take, if_pos hv, List.getElem?_drop]

/-- C6: on a buffer of length exactly `N × 46 × 4`, `flatArrayToPianoroll`
returns a `[N][46][4]`-shaped tensor whose cell `(s, p, v)` is
`buffer[s·46·4 + p·4 + v]`: the row-major `(step, pitch, voice)` reshape. -/
theorem flatArrayToPianoroll_exact (N : ℕ) (buf : List ℚ)
    (hlen : buf.length = N * NUM_PITCHES * 4) :
    (flatArrayToPianoroll buf N).length = N ∧
    (∀ s, s < N → ((flatArrayToPianoroll buf N).getD s []).length = NUM_PITCHES) ∧
    (∀ s p, s < N → p < NUM_PITCHES →
      (((flatArrayToPianoroll buf N).getD s []).getD p []).length = 4) ∧
    (∀ s p v, s < N → p < NUM_PITCHES → v < 4 →
      ((((flatArrayToPianoroll buf N).getD s []).getD p []).getD v 0)
        = buf.getD (s * NUM_PITCHES * 4 + p * 4 + v) 0) := by
  refine ⟨by simp [flatArrayToPianoroll], ?_, ?_, ?_⟩
  · intro s hs
    rw [flatArrayToPianoroll, getD_map_range _ hs]
    simp
  · intro s p hs hp
    rw [flatArrayToPianoroll, getD_map_range _ hs, getD_map_range _ hp,
      List.length_take, List.length_drop, hlen]
    have hNP : NUM_PITCHES = 46 := rfl
    rw [hNP] at hp ⊢
    omega
  · intro s p v hs hp hv
    rw [flatArrayToPianoroll, getD_map_range _ hs, getD_map_range _ hp,
      getD_take_drop hv]

/-- Witness for C6 at `N = 1`, `s = 0`, `p = 2`, `v = 3` on a length-184
buffer holding `7` at flat index `11 = 0·184 + 2·4 + 3`. -/
theorem flatArrayToPianoroll_exact_witness :
    (List.replicate 11 (0 : ℚ) ++ 7 :: List.replicate 172 0).length = 1 * NUM_PITCHES * 4 ∧
    (((flatArrayToPianoroll (List.replicate 11 (0 : ℚ) ++ 7 :: List.replicate 172 0) 1).getD 0 []).getD 2 []).getD 3 0
      = (List.replicate 11 (0 : ℚ) ++ 7 :: List.replicate 172 0).getD (0 * NUM_PITCHES * 4 + 2 * 4 + 3) 0 :=
  ⟨by decide,
   (flatArrayToPianoroll_exact 1 _ (by decide)).2.2.2 0 2 3
     (by decide) (by decide) (by decide)⟩

/-- C2 (amended): a buffer at least as long as `N × 46 × 4` yields the same
tensor as its first `N × 46 × 4` elements: trailing elements are ignored. -/
theorem flatArrayToPianoroll_ignores_trailing (N : ℕ) (buf : List ℚ)
    (hlen : N * NUM_PITCHES * 4 ≤ buf.length) :
    flatArrayToPianoroll buf N = flatArrayToPianoroll (buf.take (N * NUM_PITCHES * 4)) N := by
  unfold flatArrayToPianoroll
  refine List.map_congr_left fun s hs => List.map_congr_left fun p hp => ?_
  rw [List.mem_range] at hs hp
  rw [List.drop_take]
  have h4 : 4 ≤ N * NUM_PITCHES * 4 - (s * NUM_PITCHES * 4 + p * 4) := by
    have hNP : NUM_PITCHES = 46 := rfl
    rw [hNP] at hp ⊢
    omega
  rw [List.take_take, min_eq_left h4]

/-- Witness for C2's amended theorem: a buffer of 200 elements with `N = 1`
(`184` needed) is accepted and its 16 trailing elements are ignored. -/
theorem flatArrayToPianoroll_ignores_trailing_witness :
    1 * NUM_PITCHES * 4 ≤ (List.replicate 200 (0 : ℚ)).length ∧
    flatArrayToPianoroll (List.replicate 200 (0 : ℚ)) 1
      = flatArrayToPianoroll ((List.replicate 200 (0 : ℚ)).take (1 * NUM_PITCHES * 4)) 1 :=
  ⟨by rw [List.length_replicate]; decide,
   flatArrayToPianoroll_ignores_trailing 1 _ (by rw [List.length_replicate]; decide)⟩

/-- C2, counterexample to the claimed failure: the source never fails — on the
empty buffer with `numberOfSteps = 1` (length `0 < 184`) it still returns a
tensor, whose 46 innermost slices are all empty. -/
theorem flatArrayToPianoroll_short_returns :
    flatArrayToPianoroll [] 1 = [List.replicate 46 []] := by
  decide

theorem if_gt_eq_max (t e : ℚ) : (if e > t then e else t) = max t e := by
  rcases le_or_lt e t with h | h
  · simp [max_def, not_lt.mpr h, h]
  · rw [if_pos h, max_def, if_pos (le_of_lt h)]

/-- C9: when `tempos` and `timeSignatures` are both non-empty, export leaves
the caller's `NoteSequence` entirely unchanged (the only writes the source
performs on its argument are the two defaulting assignments, which are
guarded by emptiness). -/
theorem sequenceProtoToMidi_frame (ns : NoteSeq)
    (h1 : ns.tempos.length ≠ 0) (h2 : ns.timeSignatures.length ≠ 0) :
    (sequenceProtoToMidi ns).1 = ns := by
  simp [sequenceProtoToMidi, h1, h2]

/-- Witness for C9 on a concrete sequence with one tempo and one time
signature. -/
theorem sequenceProtoToMidi_frame_witness :
    ({ NoteSeq.empty with
        tempos := [{ time := 0, qpm := 120 }],
        timeSignatures := [{ time := 0, numerator := 4, denominator := 4 }] } : NoteSeq).tempos.length ≠ 0 ∧
    ({ NoteSeq.empty with
        tempos := [{ time := 0, qpm := 120 }],
        timeSignatures := [{ time := 0, numerator := 4, denominator := 4 }] } : NoteSeq).timeSignatures.length ≠ 0 ∧
    (sequenceProtoToMidi { NoteSeq.empty with
        tempos := [{ time := 0, qpm := 120 }],
        timeSignatures := [{ time := 0, numerator := 4, denominator := 4 }] }).1
      = { NoteSeq.empty with
          tempos := [{ time := 0, qpm := 120 }],
          timeSignatures := [{ time := 0, numerator := 4, denominator := 4 }] } :=
  ⟨by decide, by decide,
   sequenceProtoToMidi_frame _ (by decide) (by decide)⟩

/-- C1 (code bug): a sequence whose notes use exactly the contiguous
instruments `0, 1, …, 10` — which the claim, the spec, and the source's own
error message all say must be exported — is rejected with
`MidiConversionError`.  The default `Array.prototype.sort()` orders the keys
lexicographically as strings, placing `10` before `2`, so the contiguity
check `i !== instruments[i]` fails at `i = 2`. -/
theorem elevenInstruments_export_fails :
    (({ NoteSeq.empty with
        tempos := [{ time := 0, qpm := 120 }],
        timeSignatures := [{ time := 0, numerator := 4, denominator := 4 }],
        notes := (List.range 11).map fun i =>
          { pitch := 60, instrument := (i : ℤ), program := 0, startTime := 0,
            endTime := 1, velocity := 80, isDrum := false,
            quantizedStartStep := 0, quantizedEndStep := 0 } } : NoteSeq).notes.map Note.instrument
        = [0, 1, 2, 3, 4, 5, 6, 7, 8, 9, 10]) ∧
    (sequenceProtoToMidi { NoteSeq.empty with
        tempos := [{ time := 0, qpm := 120 }],
        timeSignatures := [{ time := 0, numerator := 4, denominator := 4 }],
        notes := (List.range 11).map fun i =>
          { pitch := 60, instrument := (i : ℤ), program := 0, startTime := 0,
            endTime := 1, velocity := 80, isDrum := false,
            quantizedStartStep := 0, quantizedEndStep := 0 } }).2
      = .error "Instrument list must be continuous and start at 0" :=
  ⟨rfl, rfl⟩

/-- C3 (code bug): the round trip the claim quantifies over cannot even start
on this valid input — a sequence with one tempo and one time signature at
time 0 and contiguous instruments `0, …, 10` makes `sequenceProtoToMidi`
throw — the lexicographic key sort misorders eleven contiguous instrument
numbers and trips the contiguity check — so there is no exported structure to
feed back into `midiToSequenceProto`. -/
theorem roundTrip_blocked_by_sort_bug :
    (sequenceProtoToMidi { NoteSeq.empty with
        ticksPerQuarter := 220,
        tempos := [{ time := 0, qpm := 90 }],
        timeSignatures := [{ time := 0, numerator := 3, denominator := 4 }],
        notes := (List.range 11).map fun i =>
          { pitch := 50 + (i : ℤ), instrument := (i : ℤ), program := (i : ℤ),
            startTime := 0, endTime := 2, velocity := 100, isDrum := false,
            quantizedStartStep := 0, quantizedEndStep := 0 } }).2
      = .error "Instrument list must be continuous and start at 0" :=
  rfl

theorem foldl_importNote_instrumentNumber (track : MidiTrack) (l : List MidiNote) :
    ∀ st : ImportState,
      (l.foldl (importNote track) st).instrumentNumber = st.instrumentNumber := by
  induction l with
  | nil => intro st; rfl
  | cons n l ih => intro st; rw [List.foldl_cons, ih]; rfl

theorem foldl_importNote_notes (track : MidiTrack) (l : List MidiNote) :
    ∀ st : ImportState,
      (l.foldl (importNote track) st).notes
        = st.notes ++ l.map (noteFromMidi track st.instrumentNumber) := by
  induction l with
  | nil => intro st; simp
  | cons n l ih =>
      intro st
      rw [List.foldl_cons, ih, List.map_cons]
      simp [importNote]

theorem foldl_importNote_totalTime (track : MidiTrack) (l : List MidiNote) :
    ∀ st : ImportState,
      (l.foldl (importNote track) st).totalTime
        = (l.map fun n => n.time + n.duration).foldl max st.totalTime := by
  induction l with
  | nil => intro st; rfl
  | cons n l ih =>
      intro st
      rw [List.foldl_cons, ih, List.map_cons, List.foldl_cons]
      congr 1
      exact (if_gt_eq_max ..).symm ▸ if_gt_eq_max st.totalTime (n.time + n.duration)

theorem foldl_importTrack_spec (ts : List MidiTrack) :
    ∀ st : ImportState,
      (ts.foldl importTrack st).notes = st.notes ++ tracksNotes ts st.instrumentNumber ∧
      (ts.foldl importTrack st).instrumentNumber
        = st.instrumentNumber + numNonEmptyTracks ts ∧
      (ts.foldl importTrack st).totalTime
        = (trackEndTimes ts).foldl max st.totalTime := by
  induction ts with
  | nil => intro st; simp [tracksNotes, numNonEmptyTracks, trackEndTimes]
  | cons track rest ih =>
      intro st
      rw [List.foldl_cons]
      have hImp : importTrack st track
          = track.notes.foldl (importNote track)
              (if track.notes.length > 0 then
                { st with instrumentNumber := st.instrumentNumber + 1 }
              else st) := rfl
      set st1 : ImportState :=
        if track.notes.length > 0 then
          { st with instrumentNumber := st.instrumentNumber + 1 }
        else st with hst1
      have h1n : st1.notes = st.notes := by
        by_cases h : track.notes.length > 0 <;> simp [hst1, h]
      have h1t : st1.totalTime = st.totalTime := by
        by_cases h : track.notes.length > 0 <;> simp [hst1, h]
      have h1i : st1.instrumentNumber
          = if track.notes.length > 0 then st.instrumentNumber + 1
            else st.instrumentNumber := by
        by_cases h : track.notes.length > 0 <;> simp [hst1, h]
      obtain ⟨ihn, ihi, iht⟩ := ih (track.notes.foldl (importNote track) st1)
      refine ⟨?_, ?_, ?_⟩
      · rw [hImp, ihn, foldl_importNote_notes, foldl_importNote_instrumentNumber,
          h1n, List.append_assoc]
        congr 1
        show _ = tracksNotes (track :: rest) st.instrumentNumber
        rw [tracksNotes, ← h1i]
      · rw [hImp, ihi, foldl_importNote_instrumentNumber, h1i]
        simp only [numNonEmptyTracks, List.countP_cons]
        by_cases h : 0 < track.notes.length <;> simp [h] <;> push_cast <;> omega
      · rw [hImp, iht, foldl_importNote_totalTime, h1t]
        simp only [trackEndTimes, List.flatMap_cons, List.foldl_append]

theorem le_foldl_max (l : List ℚ) :
    ∀ a : ℚ, a ≤ l.foldl max a ∧ ∀ e ∈ l, e ≤ l.foldl max a := by
  induction l with
  | nil => intro a; simp
  | cons x l ih =>
      intro a
      obtain ⟨h1, h2⟩ := ih (max a x)
      refine ⟨le_trans (le_max_left a x) h1, ?_⟩
      intro e he
      rcases List.mem_cons.mp he with rfl | he'
      · exact le_trans (le_max_right a e) h1
      · exact h2 e he'

theorem foldl_max_mem (l : List ℚ) :
    ∀ a : ℚ, l.foldl max a = a ∨ l.foldl max a ∈ l := by
  induction l with
  | nil => intro a; left; rfl
  | cons x l ih =>
      intro a
      rw [List.foldl_cons]
      rcases ih (max a x) with h | h
      · rcases max_choice a x with hm | hm
        · left; rw [h, hm]
        · right; rw [h, hm]; exact List.mem_cons_self x l
      · right; exact List.mem_cons_of_mem x h

/-- C7: `totalTime` of the imported sequence is the maximum `endTime`
(event time + duration) over all notes of all tracks — `0` when there are no
notes — for every well-formed parsed MIDI structure (nonnegative event times
and durations). -/
theorem midiToSequenceProto_totalTime (parsedMidi : ParsedMidi)
    (h : ∀ track ∈ parsedMidi.tracks, ∀ n ∈ track.notes,
      0 ≤ n.time ∧ 0 ≤ n.duration) :
    (allEndTimes parsedMidi = [] → (midiToSequenceProto parsedMidi).totalTime = 0) ∧
    (∀ e ∈ allEndTimes parsedMidi, e ≤ (midiToSequenceProto parsedMidi).totalTime) ∧
    (allEndTimes parsedMidi ≠ [] →
      (midiToSequenceProto parsedMidi).totalTime ∈ allEndTimes parsedMidi) := by
  have hTot : (midiToSequenceProto parsedMidi).totalTime
      = (allEndTimes parsedMidi).foldl max 0 :=
    (foldl_importTrack_spec parsedMidi.tracks
      { instrumentNumber := -1, notes := [], totalTime := 0 }).2.2
  refine ⟨?_, ?_, ?_⟩
  · intro hnil; rw [hTot, hnil]; rfl
  · intro e he; rw [hTot]; exact (le_foldl_max _ 0).2 e he
  · intro hne
    rw [hTot]
    rcases foldl_max_mem (allEndTimes parsedMidi) 0 with h0 | hmem
    · rcases List.exists_mem_of_ne_nil _ hne with ⟨e, he⟩
      have he0 : 0 ≤ e := by
        rw [allEndTimes, trackEndTimes] at he
        rcases List.mem_flatMap.mp he with ⟨track, htr, hmt⟩
        rcases List.mem_map.mp hmt with ⟨n, hn, rfl⟩
        obtain ⟨ht0, hd0⟩ := h track htr n hn
        linarith
      have hle : e ≤ (allEndTimes parsedMidi).foldl max 0 :=
        (le_foldl_max _ 0).2 e he
      rw [h0] at hle ⊢
      have : e = 0 := le_antisymm hle he0
      rw [← this]; exact he
    · exact hmem

/-- Witness for C7 on `demoParsedMidi` (notes ending at `1`, `2` and `1`). -/
theorem midiToSequenceProto_totalTime_witness :
    (∀ track ∈ demoParsedMidi.tracks, ∀ n ∈ track.notes, 0 ≤ n.time ∧ 0 ≤ n.duration) ∧
    (∀ e ∈ allEndTimes demoParsedMidi, e ≤ (midiToSequenceProto demoParsedMidi).totalTime) :=
  ⟨by simp [demoParsedMidi],
   (midiToSequenceProto_totalTime demoParsedMidi (by simp [demoParsedMidi])).2.1⟩

theorem tracksNotes_map_instrument (ts : List MidiTrack) :
    ∀ c : ℤ, (tracksNotes ts c).map Note.instrument
      = specInstrumentAssignment ts (c + 1) := by
  induction ts with
  | nil => intro c; rfl
  | cons track rest ih =>
      intro c
      by_cases h : track.notes.length > 0
      · simp only [tracksNotes, specInstrumentAssignment, if_pos h, List.map_append, ih]
        congr 1
        rw [List.map_map]
        exact List.map_const' track.notes (c + 1)
      · have hnil : track.notes = [] := List.length_eq_zero.mp (by omega)
        simp [tracksNotes, specInstrumentAssignment, h, hnil, ih c]

theorem mem_specInstrumentAssignment (ts : List MidiTrack) :
    ∀ d j : ℤ, j ∈ specInstrumentAssignment ts d
      ↔ d ≤ j ∧ j < d + (numNonEmptyTracks ts : ℤ) := by
  induction ts with
  | nil =>
      intro d j
      simp only [specInstrumentAssignment, numNonEmptyTracks, List.countP_nil,
        List.not_mem_nil, false_iff, Nat.cast_zero, add_zero]
      omega
  | cons track rest ih =>
      intro d j
      have hcount : (numNonEmptyTracks (track :: rest) : ℤ)
          = (numNonEmptyTracks rest : ℤ)
            + (if 0 < track.notes.length then 1 else 0) := by
        simp only [numNonEmptyTracks, List.countP_cons]
        by_cases h : 0 < track.notes.length <;> simp [h]
      by_cases h : track.notes.length > 0
      · rw [hcount]
        simp only [specInstrumentAssignment, if_pos h, List.mem_append,
          List.mem_replicate, ih (d + 1) j, if_pos h]
        constructor
        · rintro (⟨hne, rfl⟩ | ⟨h1, h2⟩) <;> omega
        · rintro ⟨h1, h2⟩
          rcases eq_or_lt_of_le h1 with rfl | hlt
          · exact Or.inl ⟨by omega, rfl⟩
          · exact Or.inr ⟨by omega, by omega⟩
      · rw [hcount]
        simp only [specInstrumentAssignment, if_neg h, ih d j, if_neg h]
        omega

/-- C8: the i-th non-empty track (in iteration order, counting from 0) gets
instrument number `i`, shared by all of its notes, empty tracks consume no
number — `specInstrumentAssignment` is exactly that numbering — and the
instrument values appearing in the output are exactly `{0, …, m-1}` for `m`
the number of non-empty tracks. -/
theorem midiToSequenceProto_instrument_numbering (parsedMidi : ParsedMidi) :
    (midiToSequenceProto parsedMidi).notes.map Note.instrument
      = specInstrumentAssignment parsedMidi.tracks 0 ∧
    ∀ j : ℤ, j ∈ (midiToSequenceProto parsedMidi).notes.map Note.instrument ↔
      0 ≤ j ∧ j < (numNonEmptyTracks parsedMidi.tracks : ℤ) := by
  have hNotes : (midiToSequenceProto parsedMidi).notes
      = tracksNotes parsedMidi.tracks (-1) := by
    have h := (foldl_importTrack_spec parsedMidi.tracks
      { instrumentNumber := -1, notes := [], totalTime := 0 }).1
    simpa [midiToSequenceProto] using h
  have hmap : (midiToSequenceProto parsedMidi).notes.map Note.instrument
      = specInstrumentAssignment parsedMidi.tracks 0 := by
    rw [hNotes, tracksNotes_map_instrument]
    norm_num
  refine ⟨hmap, fun j => ?_⟩
  rw [hmap, mem_specInstrumentAssignment]
  omega

theorem voiceNotes_eq_nil_iff (s p : ℕ) (cell : List ℚ) :
    ∀ vi : ℕ, voiceNotes s p cell vi = [] ↔ (1 : ℚ) ∉ cell := by
  induction cell with
  | nil => intro vi; simp [voiceNotes]
  | cons x rest ih =>
      intro vi
      by_cases hx : x = 1
      · simp [voiceNotes, hx]
      · simp only [voiceNotes, if_neg hx, List.nil_append, ih (vi + 1),
          List.mem_cons]
        constructor
        · intro h1 h2
          rcases h2 with h2 | h2
          · exact hx h2.symm
          · exact h1 h2
        · intro h1 h2
          exact h1 (Or.inr h2)

theorem pitchNotes_eq_nil_iff (s : ℕ) (step : List (List ℚ)) :
    ∀ pi : ℕ, pitchNotes s step pi = [] ↔ ∀ cell ∈ step, (1 : ℚ) ∉ cell := by
  induction step with
  | nil => intro pi; simp [pitchNotes]
  | cons cell rest ih =>
      intro pi
      simp [pitchNotes, List.append_eq_nil, voiceNotes_eq_nil_iff, ih (pi + 1)]

theorem stepNotes_eq_nil_iff (pianoroll : List (List (List ℚ))) :
    ∀ si : ℕ, stepNotes pianoroll si = []
      ↔ ∀ step ∈ pianoroll, ∀ cell ∈ step, (1 : ℚ) ∉ cell := by
  induction pianoroll with
  | nil => intro si; simp [stepNotes]
  | cons step rest ih =>
      intro si
      simp [stepNotes, List.append_eq_nil, pitchNotes_eq_nil_iff, ih (si + 1)]

/-- C10: with no cell equal to `1` the decoder emits no note and the read of
`notes[notes.length - 1]` throws (`none`: there is no valid result); with at
least one active cell the read is in bounds and `totalQuantizedSteps` is the
last emitted note's `quantizedEndStep`. -/
theorem pianorollToSequence_requires_active (pianoroll : List (List (List ℚ))) :
    (¬ hasActiveCell pianoroll →
      stepNotes pianoroll 0 = [] ∧ pianorollToSequence pianoroll = none) ∧
    (hasActiveCell pianoroll →
      ∃ ns lastNote, pianorollToSequence pianoroll = some ns ∧
        ns.notes = stepNotes pianoroll 0 ∧ ns.notes ≠ [] ∧
        ns.notes.getLast? = some lastNote ∧
        ns.totalQuantizedSteps = lastNote.quantizedEndStep) := by
  constructor
  · intro h
    have hforall : ∀ step ∈ pianoroll, ∀ cell ∈ step, (1 : ℚ) ∉ cell := by
      intro step hs cell hc hmem
      exact h ⟨step, hs, cell, hc, hmem⟩
    have hnil := (stepNotes_eq_nil_iff pianoroll 0).mpr hforall
    refine ⟨hnil, ?_⟩
    simp [pianorollToSequence, hnil]
  · intro h
    have hne : stepNotes pianoroll 0 ≠ [] := by
      intro hnil
      obtain ⟨step, hs, cell, hc, hmem⟩ := h
      exact (stepNotes_eq_nil_iff pianoroll 0).mp hnil step hs cell hc hmem
    rcases hl : (stepNotes pianoroll 0).getLast? with _ | lastNote
    · exact absurd (List.getLast?_eq_none_iff.mp hl) hne
    · have hps : pianorollToSequence pianoroll
          = some { NoteSeq.empty with
                    notes := stepNotes pianoroll 0
                    totalQuantizedSteps := lastNote.quantizedEndStep } := by
        simp [pianorollToSequence, hl]
      exact ⟨_, lastNote, hps, rfl, hne, hl, rfl⟩

/-- Witness for C10 on the one-cell tensor `[[[1]]]`. -/
theorem pianorollToSequence_requires_active_witness :
    hasActiveCell [[[1]]] ∧
    ∃ ns lastNote, pianorollToSequence [[[1]]] = some ns ∧
      ns.notes = stepNotes [[[1]]] 0 ∧ ns.notes ≠ [] ∧
      ns.notes.getLast? = some lastNote ∧
      ns.totalQuantizedSteps = lastNote.quantizedEndStep :=
  ⟨by decide, (pianorollToSequence_requires_active [[[1]]]).2 (by decide)⟩

theorem wellShaped_empty (numberOfSteps : ℕ) :
    WellShaped (buildEmptyPianoroll numberOfSteps) numberOfSteps := by
  constructor
  · simp [buildEmptyPianoroll]
  · intro step hstep
    rw [buildEmptyPianoroll] at hstep
    rcases List.mem_map.mp hstep with ⟨j, _, rfl⟩
    simp

theorem setCell_ok {numberOfSteps : ℕ} {pianoroll : List (List (List ℚ))}
    (hW : WellShaped pianoroll numberOfSteps) {i p : ℤ} (v : ℤ)
    (hi0 : 0 ≤ i) (hiN : i < (numberOfSteps : ℤ))
    (hp0 : 0 ≤ p) (hpN : p < (NUM_PITCHES : ℤ)) :
    ∃ pianoroll', setCell pianoroll i p v = some pianoroll' ∧
      WellShaped pianoroll' numberOfSteps := by
  have hi' : i.toNat < pianoroll.length := by rw [hW.1]; omega
  have hstep_eq : pianoroll.getD i.toNat [] = pianoroll.get ⟨i.toNat, hi'⟩ := by
    rw [List.getD_eq_getElem?_getD, List.getElem?_eq_getElem hi']
    rfl
  have hrowlen : (pianoroll.getD i.toNat []).length = NUM_PITCHES := by
    rw [hstep_eq]
    exact hW.2 _ (List.get_mem pianoroll _ hi')
  have hp' : p.toNat < (pianoroll.getD i.toNat []).length := by rw [hrowlen]; omega
  have hset : setCell pianoroll i p v
      = some (pianoroll.set i.toNat ((pianoroll.getD i.toNat []).set p.toNat
          (((pianoroll.getD i.toNat []).getD p.toNat []).set v.toNat 1))) := by
    rw [setCell, if_pos ⟨hi0, hi'⟩]
    rw [if_pos ⟨hp0, hp'⟩]
  refine ⟨_, hset, ?_, ?_⟩
  · rw [List.length_set, hW.1]
  · intro step hstep
    rcases List.mem_or_eq_of_mem_set hstep with h | h
    · exact hW.2 _ h
    · rw [h, List.length_set, hrowlen]

theorem writeSteps_ok {numberOfSteps : ℕ} (p v : ℤ)
    (hp0 : 0 ≤ p) (hpN : p < (NUM_PITCHES : ℤ)) :
    ∀ (k : ℕ) (pianoroll : List (List (List ℚ))) (i : ℤ),
      WellShaped pianoroll numberOfSteps → 0 ≤ i → i + k ≤ (numberOfSteps : ℤ) →
      ∃ pianoroll', writeSteps p v pianoroll i k = some pianoroll' ∧
        WellShaped pianoroll' numberOfSteps := by
  intro k
  induction k with
  | zero => intro pianoroll i hW _ _; exact ⟨pianoroll, rfl, hW⟩
  | succ k ih =>
      intro pianoroll i hW hi0 hik
      have hiN : i < (numberOfSteps : ℤ) := by push_cast at hik; omega
      obtain ⟨pianoroll1, hset, hW1⟩ := setCell_ok hW v hi0 hiN hp0 hpN
      obtain ⟨pianoroll', hrest, hW'⟩ := ih pianoroll1 (i + 1) hW1 (by omega)
        (by push_cast at hik ⊢; omega)
      refine ⟨pianoroll', ?_, hW'⟩
      rw [writeSteps, hset]
      exact hrest

theorem addNote_badVoice (pianoroll : List (List (List ℚ))) {note : Note}
    (h : badVoice note = true) :
    addNote pianoroll note = .error (invalidVoiceMsg note.instrument) := by
  have h' : note.instrument < 0 ∨ note.instrument > 3 := by
    simpa [badVoice] using h
  rw [addNote, if_pos h']

theorem addNote_ok {numberOfSteps : ℕ} {pianoroll : List (List (List ℚ))}
    (hW : WellShaped pianoroll numberOfSteps) {note : Note}
    (hin : noteInRange numberOfSteps note) (hv : badVoice note = false) :
    ∃ pianoroll', addNote pianoroll note = .ok pianoroll' ∧
      WellShaped pianoroll' numberOfSteps := by
  have hv' : ¬(note.instrument < 0 ∨ note.instrument > 3) := by
    simpa [badVoice] using hv
  obtain ⟨hp0, hp1, hs0, hsN⟩ := hin
  rw [addNote, if_neg hv']
  by_cases hdur : note.quantizedEndStep - note.quantizedStartStep ≤ 0
  · have h0 : (note.quantizedEndStep - note.quantizedStartStep).toNat = 0 := by
      omega
    rw [h0]
    exact ⟨pianoroll, rfl, hW⟩
  · push_neg at hdur
    obtain ⟨pianoroll', hws, hW'⟩ := writeSteps_ok (note.pitch - MIN_PITCH)
      note.instrument (by omega) (by omega)
      (note.quantizedEndStep - note.quantizedStartStep).toNat
      pianoroll note.quantizedStartStep hW hs0 (by omega)
    rw [hws]
    exact ⟨pianoroll', rfl, hW'⟩

theorem foldlM_addNote_spec (numberOfSteps : ℕ) :
    ∀ (l : List Note) (pianoroll : List (List (List ℚ))),
      WellShaped pianoroll numberOfSteps →
      (∀ n ∈ l, noteInRange numberOfSteps n) →
      (∀ bad, l.find? badVoice = some bad →
        l.foldlM addNote pianoroll = .error (invalidVoiceMsg bad.instrument)) ∧
      (l.find? badVoice = none →
        ∃ pianoroll', l.foldlM addNote pianoroll = .ok pianoroll' ∧
          WellShaped pianoroll' numberOfSteps) := by
  intro l
  induction l with
  | nil =>
      intro pianoroll hW hin
      refine ⟨?_, ?_⟩
      · intro bad hbad
        simp [List.find?] at hbad
      · intro _
        exact ⟨pianoroll, rfl, hW⟩
  | cons n l ih =>
      intro pianoroll hW hin
      by_cases hb : badVoice n
      · have hf : (n :: l).find? badVoice = some n := List.find?_cons_of_pos _ hb
        have herr := addNote_badVoice pianoroll hb
        refine ⟨?_, ?_⟩
        · intro bad hbad
          rw [hf] at hbad
          injection hbad with hbn
          subst hbn
          rw [List.foldlM_cons, herr]
          rfl
        · intro hnone
          rw [hf] at hnone
          cases hnone
      · have hb' : badVoice n = false := by simpa using hb
        have hf : (n :: l).find? badVoice = l.find? badVoice :=
          List.find?_cons_of_neg _ (by simp [hb'])
        obtain ⟨pianoroll1, hok, hW1⟩ := addNote_ok hW (hin n (List.mem_cons_self n l)) hb'
        obtain ⟨ih1, ih2⟩ := ih pianoroll1 hW1 (fun m hm => hin m (List.mem_cons_of_mem n hm))
        refine ⟨?_, ?_⟩
        · intro bad hbad
          rw [hf] at hbad
          rw [List.foldlM_cons, hok]
          exact ih1 bad hbad
        · intro hnone
          rw [hf] at hnone
          obtain ⟨pianoroll', h', hW'⟩ := ih2 hnone
          refine ⟨pianoroll', ?_, hW'⟩
          rw [List.foldlM_cons, hok]
          exact h'

/-- C4 (amended): on a sequence whose notes all have in-range pitches and
quantized steps, the encoder fails with the invalid-voice error naming the
first offending `instrument` value when one lies outside `[0, 3]`, and
succeeds when all lie inside.  (Without the in-range restriction an earlier
out-of-range write can throw a `TypeError` first, so the unrestricted claim
fails.) -/
theorem sequenceToPianoroll_voice_validation (ns : NoteSeq) (numberOfSteps : ℕ)
    (hin : ∀ note ∈ ns.notes, noteInRange numberOfSteps note) :
    (∀ bad, ns.notes.find? badVoice = some bad →
      sequenceToPianoroll ns numberOfSteps = .error (invalidVoiceMsg bad.instrument) ∧
      bad ∈ ns.notes ∧ (bad.instrument < 0 ∨ 3 < bad.instrument)) ∧
    (ns.notes.find? badVoice = none →
      ∃ pianoroll, sequenceToPianoroll ns numberOfSteps = .ok pianoroll ∧
        WellShaped pianoroll numberOfSteps) := by
  obtain ⟨h1, h2⟩ := foldlM_addNote_spec numberOfSteps ns.notes
    (buildEmptyPianoroll numberOfSteps) (wellShaped_empty numberOfSteps) hin
  refine ⟨fun bad hbad => ⟨h1 bad hbad, List.mem_of_find?_eq_some hbad, ?_⟩, h2⟩
  have hb := List.find?_some hbad
  simpa [badVoice] using hb

/-- Witness for C4 on `voiceDemoSeq`: both notes are in range and the second
carries voice 4, so the call fails with the message naming `4`. -/
theorem sequenceToPianoroll_voice_validation_witness :
    (∀ note ∈ voiceDemoSeq.notes, noteInRange 2 note) ∧
    sequenceToPianoroll voiceDemoSeq 2 = .error (invalidVoiceMsg 4) :=
  ⟨by decide,
   ((sequenceToPianoroll_voice_validation voiceDemoSeq 2 (by decide)).1
     { pitch := 50, instrument := 4, program := 0, startTime := 0, endTime := 0,
       velocity := 0, isDrum := false, quantizedStartStep := 0, quantizedEndStep := 1 }
     rfl).1⟩

/-- C4, counterexample to the unrestricted claim: `typeErrorSeq` contains a
note with instrument 4 (outside `[0, 3]`), yet the call does not fail with
the invalid-voice error — the earlier note's out-of-range pitch 200 makes the
write `pianoroll[0][164][0] = 1` throw a `TypeError` first. -/
theorem sequenceToPianoroll_wrong_error :
    sequenceToPianoroll typeErrorSeq 1
      = .error "TypeError: Cannot set properties of undefined" ∧
    invalidVoiceMsg 4 ≠ "TypeError: Cannot set properties of undefined" :=
  ⟨rfl, by decide⟩

theorem getD_append_self {α : Type} (xs : List α) (y : α) (ys : List α) (d : α) :
    (xs ++ y :: ys).getD xs.length d = y := by
  induction xs with
  | nil => rfl
  | cons a xs ih => simpa using ih

theorem set_append_self {α : Type} (xs : List α) (y : α) (ys : List α) (z : α) :
    (xs ++ y :: ys).set xs.length z = xs ++ z :: ys := by
  induction xs with
  | nil => rfl
  | cons a xs ih => simp [ih]

theorem getD_replicate_lt {α : Type} (n j : ℕ) (c d : α) (h : j < n) :
    (List.replicate n c).getD j d = c := by
  induction n generalizing j with
  | zero => omega
  | succ m ih =>
      cases j with
      | zero => rfl
      | succ j' => simpa [List.replicate_succ] using ih j' (by omega)

theorem buildEmptyPianoroll_eq (numberOfSteps : ℕ) :
    buildEmptyPianoroll numberOfSteps = List.replicate numberOfSteps zeroRow := by
  rw [buildEmptyPianoroll, List.map_const', List.length_range]
  congr 1

theorem writeSteps_run (p v : ℤ) (hp0 : 0 ≤ p) (hpN : p.toNat < NUM_PITCHES) :
    ∀ (k : ℕ) (done : List (List (List ℚ))) (m : ℕ), k ≤ m →
      writeSteps p v (done ++ List.replicate m zeroRow) (done.length : ℤ) k
        = some (done ++ (List.replicate k (oneRow p v)
            ++ List.replicate (m - k) zeroRow)) := by
  intro k
  induction k with
  | zero => intro done m _; simp [writeSteps]
  | succ k ih =>
      intro done m hkm
      obtain ⟨m', rfl⟩ : ∃ m', m = m' + 1 := ⟨m - 1, by omega⟩
      have hrep : List.replicate (m' + 1) zeroRow
          = zeroRow :: List.replicate m' zeroRow := rfl
      have hi' : (((done.length : ℤ)).toNat) = done.length := rfl
      have hlen : (done.length : ℤ).toNat < (done ++ List.replicate (m' + 1) zeroRow).length := by
        rw [hi', List.length_append, List.length_replicate]
        omega
      have hgetD : (done ++ List.replicate (m' + 1) zeroRow).getD (done.length : ℤ).toNat []
          = zeroRow := by
        rw [hi', hrep]
        exact getD_append_self done zeroRow _ []
      have hcell : zeroRow.getD p.toNat [] = zeroCell := by
        rw [zeroRow]
        exact getD_replicate_lt _ _ _ _ hpN
      have hset : setCell (done ++ List.replicate (m' + 1) zeroRow) (done.length : ℤ) p v
          = some (done ++ oneRow p v :: List.replicate m' zeroRow) := by
        rw [setCell, if_pos ⟨Int.ofNat_nonneg _, hlen⟩]
        rw [if_pos ⟨hp0, by rw [hgetD, zeroRow, List.length_replicate]; exact hpN⟩]
        rw [hgetD, hcell, hi', hrep, set_append_self, oneRow]
      rw [writeSteps, hset]
      show writeSteps p v (done ++ oneRow p v :: List.replicate m' zeroRow)
          ((done.length : ℤ) + 1) k
        = some (done ++ (List.replicate (k + 1) (oneRow p v)
            ++ List.replicate (m' + 1 - (k + 1)) zeroRow))
      rw [List.append_cons]
      have hlen1 : ((done.length : ℤ) + 1) = (((done ++ [oneRow p v]).length : ℕ) : ℤ) := by
        simp
      rw [hlen1, ih (done ++ [oneRow p v]) m' (by omega)]
      congr 1
      simp only [List.append_assoc, List.singleton_append, List.replicate_succ,
        List.cons_append, Nat.succ_sub_succ, List.nil_append]

/-- Closed form of encoding a single 3-step note: `s` silent steps, three
copies of the one-cell-active step, then silence. -/
theorem encode_singleNote (note : Note) (numberOfSteps : ℕ)
    (hp0 : MIN_PITCH ≤ note.pitch)
    (hp1 : note.pitch < MIN_PITCH + (NUM_PITCHES : ℤ))
    (hv0 : 0 ≤ note.instrument) (hv1 : note.instrument ≤ 3)
    (hs0 : 0 ≤ note.quantizedStartStep)
    (hdur : note.quantizedEndStep = note.quantizedStartStep + 3)
    (hN : note.quantizedEndStep ≤ (numberOfSteps : ℤ)) :
    sequenceToPianoroll (singleNoteSeq note) numberOfSteps
      = .ok (List.replicate note.quantizedStartStep.toNat zeroRow
          ++ (List.replicate 3 (oneRow (note.pitch - MIN_PITCH) note.instrument)
              ++ List.replicate (numberOfSteps - note.quantizedStartStep.toNat - 3) zeroRow)) := by
  have hvneg : ¬(note.instrument < 0 ∨ note.instrument > 3) := by omega
  have hd3 : (note.quantizedEndStep - note.quantizedStartStep).toNat = 3 := by omega
  have hfold : sequenceToPianoroll (singleNoteSeq note) numberOfSteps
      = addNote (buildEmptyPianoroll numberOfSteps) note := by
    simp [sequenceToPianoroll, singleNoteSeq, List.foldlM]
  rw [hfold, addNote, if_neg hvneg, hd3, buildEmptyPianoroll_eq]
  have hsplit : List.replicate numberOfSteps zeroRow
      = List.replicate note.quantizedStartStep.toNat zeroRow
        ++ List.replicate (numberOfSteps - note.quantizedStartStep.toNat) zeroRow := by
    rw [← List.replicate_add]
    congr 1
    omega
  have hlen : ((List.replicate note.quantizedStartStep.toNat zeroRow).length : ℤ)
      = note.quantizedStartStep := by
    rw [List.length_replicate]
    omega
  have hrun := writeSteps_run (note.pitch - MIN_PITCH) note.instrument
    (by omega) (by omega) 3
    (List.replicate note.quantizedStartStep.toNat zeroRow)
    (numberOfSteps - note.quantizedStartStep.toNat) (by omega)
  rw [hlen] at hrun
  rw [hsplit, hrun]

theorem stepNotes_append (l1 l2 : List (List (List ℚ))) :
    ∀ i : ℕ, stepNotes (l1 ++ l2) i = stepNotes l1 i ++ stepNotes l2 (i + l1.length) := by
  induction l1 with
  | nil => intro i; simp [stepNotes]
  | cons s l1 ih =>
      intro i
      show pitchNotes i s 0 ++ stepNotes (l1 ++ l2) (i + 1)
          = (pitchNotes i s 0 ++ stepNotes l1 (i + 1)) ++ stepNotes l2 (i + (s :: l1).length)
      rw [ih (i + 1), List.append_assoc]
      have harith : i + 1 + l1.length = i + (s :: l1).length := by
        rw [List.length_cons]
        omega
      rw [harith]

theorem stepNotes_replicate_zeroRow (n : ℕ) :
    ∀ i : ℕ, stepNotes (List.replicate n zeroRow) i = [] := by
  have hrow : ∀ i : ℕ, pitchNotes i zeroRow 0 = [] := by
    intro i
    apply (pitchNotes_eq_nil_iff i zeroRow 0).mpr
    intro cell hcell
    rw [zeroRow] at hcell
    rw [List.eq_of_mem_replicate hcell, zeroCell]
    norm_num
  induction n with
  | zero => intro i; rfl
  | succ m ih => intro i; simp [List.replicate_succ, stepNotes, hrow, ih (i + 1)]

theorem pitchNotes_replicate_set (si : ℕ) (c : List ℚ) :
    ∀ (n j pIdx : ℕ), j < n →
      pitchNotes si ((List.replicate n zeroCell).set j c) pIdx
        = voiceNotes si (pIdx + j) c 0 := by
  intro n
  induction n with
  | zero => intro j pIdx h; omega
  | succ m ih =>
      intro j pIdx h
      have hznil : ∀ q : ℕ, voiceNotes si q zeroCell 0 = [] := by
        intro q
        apply (voiceNotes_eq_nil_iff si q zeroCell 0).mpr
        rw [zeroCell]
        norm_num
      have htail : ∀ q : ℕ, pitchNotes si (List.replicate m zeroCell) q = [] := by
        intro q
        apply (pitchNotes_eq_nil_iff si _ q).mpr
        intro cell hcell
        rw [List.eq_of_mem_replicate hcell, zeroCell]
        norm_num
      cases j with
      | zero =>
          simp [List.replicate_succ, pitchNotes, htail (pIdx + 1)]
      | succ j' =>
          simp only [List.replicate_succ, List.set_cons_succ, pitchNotes,
            hznil pIdx, List.nil_append, ih j' (pIdx + 1) (by omega)]
          congr 1
          omega

theorem voiceNotes_zeroCell_set (si P : ℕ) :
    ∀ w : ℕ, w < 4 → voiceNotes si P (zeroCell.set w 1) 0 = [mkDecodedNote si P w] := by
  intro w hw
  interval_cases w <;> norm_num [zeroCell, voiceNotes]

theorem pitchNotes_oneRow (si : ℕ) (p v : ℤ)
    (hp : p.toNat < NUM_PITCHES) (hv : v.toNat < 4) :
    pitchNotes si (oneRow p v) 0 = [mkDecodedNote si p.toNat v.toNat] := by
  rw [oneRow, zeroRow, pitchNotes_replicate_set si _ NUM_PITCHES p.toNat 0 hp]
  simpa using voiceNotes_zeroCell_set si p.toNat v.toNat hv

theorem decode_three (a b : ℕ) (p v : ℤ)
    (hp : p.toNat < NUM_PITCHES) (hv : v.toNat < 4) :
    stepNotes (List.replicate a zeroRow
      ++ (List.replicate 3 (oneRow p v) ++ List.replicate b zeroRow)) 0
      = [mkDecodedNote a p.toNat v.toNat,
         mkDecodedNote (a + 1) p.toNat v.toNat,
         mkDecodedNote (a + 2) p.toNat v.toNat] := by
  rw [stepNotes_append, stepNotes_replicate_zeroRow, stepNotes_append]
  simp only [List.length_replicate, List.nil_append, Nat.zero_add]
  rw [stepNotes_replicate_zeroRow]
  have h3 : List.replicate 3 (oneRow p v) = [oneRow p v, oneRow p v, oneRow p v] := rfl
  rw [h3]
  simp [stepNotes, pitchNotes_oneRow _ _ _ hp hv]

theorem pianorollToSequence_eq_of_stepNotes {pianoroll : List (List (List ℚ))}
    {l : List Note} (h : stepNotes pianoroll 0 = l) {lastNote : Note}
    (hl : l.getLast? = some lastNote) :
    pianorollToSequence pianoroll
      = some { NoteSeq.empty with
                notes := l, totalQuantizedSteps := lastNote.quantizedEndStep } := by
  simp only [pianorollToSequence, h, hl]


/-- C5: encoding a sequence with a single note of duration 3 steps (any
in-range pitch, voice in `[0, 3]`, start step `s` with `s + 3 ≤ numberOfSteps`)
and decoding the result yields exactly three notes of one step each at the
consecutive steps `s`, `s + 1`, `s + 2`, all with the original note's pitch
and instrument. -/
theorem singleNote_pianoroll_roundtrip (note : Note) (numberOfSteps : ℕ)
    (hp0 : MIN_PITCH ≤ note.pitch)
    (hp1 : note.pitch < MIN_PITCH + (NUM_PITCHES : ℤ))
    (hv0 : 0 ≤ note.instrument) (hv1 : note.instrument ≤ 3)
    (hs0 : 0 ≤ note.quantizedStartStep)
    (hdur : note.quantizedEndStep = note.quantizedStartStep + 3)
    (hN : note.quantizedEndStep ≤ (numberOfSteps : ℤ)) :
    ∃ pianoroll,
      sequenceToPianoroll (singleNoteSeq note) numberOfSteps = .ok pianoroll ∧
      ∃ out, pianorollToSequence pianoroll = some out ∧
        out.notes =
          [{ pitch := note.pitch, instrument := note.instrument, program := 0,
             startTime := 0, endTime := 0, velocity := 0, isDrum := false,
             quantizedStartStep := note.quantizedStartStep,
             quantizedEndStep := note.quantizedStartStep + 1 },
           { pitch := note.pitch, instrument := note.instrument, program := 0,
             startTime := 0, endTime := 0, velocity := 0, isDrum := false,
             quantizedStartStep := note.quantizedStartStep + 1,
             quantizedEndStep := note.quantizedStartStep + 2 },
           { pitch := note.pitch, instrument := note.instrument, program := 0,
             startTime := 0, endTime := 0, velocity := 0, isDrum := false,
             quantizedStartStep := note.quantizedStartStep + 2,
             quantizedEndStep := note.quantizedStartStep + 3 }] := by
  have henc := encode_singleNote note numberOfSteps hp0 hp1 hv0 hv1 hs0 hdur hN
  have hdec := decode_three note.quantizedStartStep.toNat
    (numberOfSteps - note.quantizedStartStep.toNat - 3)
    (note.pitch - MIN_PITCH) note.instrument (by omega) (by omega)
  have hlast : ([mkDecodedNote note.quantizedStartStep.toNat
        (note.pitch - MIN_PITCH).toNat note.instrument.toNat,
      mkDecodedNote (note.quantizedStartStep.toNat + 1)
        (note.pitch - MIN_PITCH).toNat note.instrument.toNat,
      mkDecodedNote (note.quantizedStartStep.toNat + 2)
        (note.pitch - MIN_PITCH).toNat note.instrument.toNat]).getLast?
      = some (mkDecodedNote (note.quantizedStartStep.toNat + 2)
          (note.pitch - MIN_PITCH).toNat note.instrument.toNat) := rfl
  have hps := pianorollToSequence_eq_of_stepNotes hdec hlast
  refine ⟨_, henc, _, hps, ?_⟩
  have hpc : ((note.pitch - MIN_PITCH).toNat : ℤ) = note.pitch - MIN_PITCH := by omega
  have hvc : (note.instrument.toNat : ℤ) = note.instrument := by omega
  have hac : (note.quantizedStartStep.toNat : ℤ) = note.quantizedStartStep := by omega
  simp only [mkDecodedNote, List.cons.injEq, Note.mk.injEq, and_true, true_and,
    Nat.cast_add, Nat.cast_one, Nat.cast_ofNat, hpc, hvc, hac]
  omega

/-- Witness for C5 at pitch 60, voice 2, start step 1, four steps. -/
theorem singleNote_pianoroll_roundtrip_witness :
    ∃ pianoroll,
      sequenceToPianoroll (singleNoteSeq
        { pitch := 60, instrument := 2, program := 0, startTime := 0, endTime := 0,
          velocity := 0, isDrum := false,
          quantizedStartStep := 1, quantizedEndStep := 4 }) 4 = .ok pianoroll ∧
      ∃ out, pianorollToSequence pianoroll = some out ∧
        out.notes =
          [{ pitch := 60, instrument := 2, program := 0,
             startTime := 0, endTime := 0, velocity := 0, isDrum := false,
             quantizedStartStep := 1, quantizedEndStep := 1 + 1 },
           { pitch := 60, instrument := 2, program := 0,
             startTime := 0, endTime := 0, velocity := 0, isDrum := false,
             quantizedStartStep := 1 + 1, quantizedEndStep := 1 + 2 },
           { pitch := 60, instrument := 2, program := 0,
             startTime := 0, endTime := 0, velocity := 0, isDrum := false,
             quantizedStartStep := 1 + 2, quantizedEndStep := 1 + 3 }] :=
  singleNote_pianoroll_roundtrip
    { pitch := 60, instrument := 2, program := 0, startTime := 0, endTime := 0,
      velocity := 0, isDrum := false,
      quantizedStartStep := 1, quantizedEndStep := 4 } 4
    (by decide) (by decide) (by decide) (by decide) (by decide) (by decide) (by decide)
